import Mathlib

/-!
# go-ext-cover: function-level coverage matching

A shallow embedding of `go_coverage.go`: the overlap scan `FuncExtent.coverage`,
the line totals of `getOverallCoverage`, the per-function records built by
`getFunctionInfos`, and the counting done in the `Action` closure of `main`.

Conventions of the embedding.

* Go's `int` fields (positions, `NumStmt`, `Count`) are integers; they are only
  compared, or converted with `int64(...)`.
* The `int64` accumulators `covered` and `total` wrap around on overflow, as Go
  arithmetic does: every addition and subtraction goes through `wrapInt64`.
* The two `int64` counters of `main` are incremented once per element of a
  slice, and a slice has fewer than `2^63` elements, so they cannot wrap; they
  are plain integer counters.
* `findFile` and `findFuncs` read the file system and call the Go parser; they
  are parameters of `getFunctionInfos`, returning a value or an error.
-/

namespace GoExtCover

/-! ## `int64` arithmetic -/

/-- The two's-complement value of an integer as an `int64`. -/
def wrapInt64 (x : Int) : Int :=
  (x + 9223372036854775808) % 18446744073709551616 - 9223372036854775808

/-- An integer that an `int64` can hold. -/
def isInt64 (x : Int) : Prop :=
  -9223372036854775808 ≤ x ∧ x < 9223372036854775808

instance (x : Int) : Decidable (isInt64 x) :=
  inferInstanceAs (Decidable (-9223372036854775808 ≤ x ∧ x < 9223372036854775808))

/-- Go's `a + b` on `int64`. -/
def addInt64 (a b : Int) : Int := wrapInt64 (a + b)

/-- Go's `a - b` on `int64`. -/
def subInt64 (a b : Int) : Int := wrapInt64 (a - b)

/-- The sum of a list of integers as an `int64` value. -/
def int64Sum (l : List Int) : Int := wrapInt64 l.sum

/-! ## Data model -/

/-- The fields of `cover.ProfileBlock` (golang.org/x/tools/cover). -/
structure ProfileBlock where
  StartLine : Int
  StartCol : Int
  EndLine : Int
  EndCol : Int
  NumStmt : Int
  Count : Int
deriving DecidableEq, Repr

/-- The fields of `cover.Profile` that the program reads. -/
structure Profile where
  FileName : String
  Blocks : List ProfileBlock
deriving DecidableEq, Repr

/-- FuncExtent describes a function's extent in the source by file and position. -/
structure FuncExtent where
  name : String
  startLine : Int
  startCol : Int
  endLine : Int
  endCol : Int
deriving DecidableEq, Repr

/-- The per-function record built by `getFunctionInfos`. -/
structure funcInfo where
  fileName : String
  functionName : String
  functionStartLine : Int
  functionEndLine : Int
  isCovered : Bool
deriving DecidableEq, Repr

/-- The report record. -/
structure Coverage where
  LineMissed : Int
  LineCovered : Int
  MethodMissed : Int
  MethodCovered : Int
deriving DecidableEq, Repr

/-! ## `FuncExtent.coverage` -/

/-- The first test of the loop body: the block is past the end of the function. -/
def pastEnd (f : FuncExtent) (b : ProfileBlock) : Prop :=
  b.StartLine > f.endLine ∨ (b.StartLine = f.endLine ∧ b.StartCol ≥ f.endCol)

instance (f : FuncExtent) (b : ProfileBlock) : Decidable (pastEnd f b) :=
  inferInstanceAs (Decidable
    (b.StartLine > f.endLine ∨ (b.StartLine = f.endLine ∧ b.StartCol ≥ f.endCol)))

/-- The second test of the loop body: the block is before the beginning of the function. -/
def beforeStart (f : FuncExtent) (b : ProfileBlock) : Prop :=
  b.EndLine < f.startLine ∨ (b.EndLine = f.startLine ∧ b.EndCol ≤ f.startCol)

instance (f : FuncExtent) (b : ProfileBlock) : Decidable (beforeStart f b) :=
  inferInstanceAs (Decidable
    (b.EndLine < f.startLine ∨ (b.EndLine = f.startLine ∧ b.EndCol ≤ f.startCol)))

/-- The `for _, b := range profile.Blocks` loop of `coverage`, with the running
value of `covered`: `break` returns it, `continue` goes on with the rest. -/
def coverageLoop (f : FuncExtent) : List ProfileBlock → Int → Int
  | [], covered => covered
  | b :: rest, covered =>
    if pastEnd f b then covered
    else if beforeStart f b then coverageLoop f rest covered
    else if b.Count > 0 then coverageLoop f rest (addInt64 covered (wrapInt64 b.NumStmt))
    else coverageLoop f rest covered

/-- The method `coverage` of `FuncExtent`: `covered` starts at zero, and the one
value returned is its final value, the count of covered statements. -/
def FuncExtent.coverage (f : FuncExtent) (profile : Profile) : Int :=
  coverageLoop f profile.Blocks 0

/-! ## `getOverallCoverage` -/

/-- The inner loop over the blocks of one profile, on the pair `(total, covered)`. -/
def overallBlocks : List ProfileBlock → Int × Int → Int × Int
  | [], acc => acc
  | block :: rest, (total, covered) =>
    let total1 := addInt64 total (wrapInt64 block.NumStmt)
    if block.Count > 0 then
      overallBlocks rest (total1, addInt64 covered (wrapInt64 block.NumStmt))
    else
      overallBlocks rest (total1, covered)

/-- The outer loop over the profiles. -/
def overallProfiles : List Profile → Int × Int → Int × Int
  | [], acc => acc
  | profile :: rest, acc => overallProfiles rest (overallBlocks profile.Blocks acc)

/-- The function `getOverallCoverage`: `(total, covered)`, its error is always nil. -/
def getOverallCoverage (profiles : List Profile) : Except String (Int × Int) :=
  .ok (overallProfiles profiles (0, 0))

/-! ## `getFunctionInfos` -/

/-- The record appended for function `f` of the file `file` with profile `profile`. -/
def mkFuncInfo (file : String) (profile : Profile) (f : FuncExtent) : funcInfo :=
  { fileName := file
    functionName := f.name
    functionStartLine := f.startLine
    functionEndLine := f.endLine
    isCovered := decide (f.coverage profile > 0) }

/-- The loop `for _, f := range funcs` appending one record per function. -/
def appendFuncInfos (file : String) (profile : Profile) :
    List FuncExtent → List funcInfo → List funcInfo
  | [], funcInfos => funcInfos
  | f :: rest, funcInfos =>
    appendFuncInfos file profile rest (funcInfos ++ [mkFuncInfo file profile f])

/-- The loop over the profiles; the first error of `findFile` or `findFuncs` is returned. -/
def getFunctionInfosLoop (findFile : String → Except String String)
    (findFuncs : String → Except String (List FuncExtent)) :
    List Profile → List funcInfo → Except String (List funcInfo)
  | [], funcInfos => .ok funcInfos
  | profile :: rest, funcInfos =>
    match findFile profile.FileName with
    | .error err => .error err
    | .ok file =>
      match findFuncs file with
      | .error err => .error err
      | .ok funcs =>
        getFunctionInfosLoop findFile findFuncs rest (appendFuncInfos file profile funcs funcInfos)

/-- The function `getFunctionInfos`. -/
def getFunctionInfos (findFile : String → Except String String)
    (findFuncs : String → Except String (List FuncExtent))
    (profiles : List Profile) : Except String (List funcInfo) :=
  getFunctionInfosLoop findFile findFuncs profiles []

/-! ## The `Action` of `main` -/

/-- The counting loop of `main` on the pair `(methodMissed, methodCovered)`. -/
def countMethods : List funcInfo → Int × Int → Int × Int
  | [], acc => acc
  | info :: rest, (methodMissed, methodCovered) =>
    if info.isCovered then countMethods rest (methodMissed, methodCovered + 1)
    else countMethods rest (methodMissed + 1, methodCovered)

/-- The `Coverage` literal built right after `getOverallCoverage`. -/
def lineCoverage (total covered : Int) : Coverage :=
  { LineMissed := subInt64 total covered
    LineCovered := covered
    MethodMissed := 0
    MethodCovered := 0 }

/-- The `Action` closure of `main` from the parsed profiles up to the record
that is serialised. -/
def mainAction (findFile : String → Except String String)
    (findFuncs : String → Except String (List FuncExtent))
    (profiles : List Profile) : Except String Coverage :=
  match getOverallCoverage profiles with
  | .error err => .error err
  | .ok (total, covered) =>
    let coverage := lineCoverage total covered
    match getFunctionInfos findFile findFuncs profiles with
    | .error err => .error err
    | .ok funcInfos =>
      let counts := countMethods funcInfos (0, 0)
      .ok { coverage with MethodMissed := counts.1, MethodCovered := counts.2 }

/-! ## Specification-side notions -/

/-- Block `a` starts at or before block `b`, by line and then column. -/
def startLE (a b : ProfileBlock) : Prop :=
  a.StartLine < b.StartLine ∨ (a.StartLine = b.StartLine ∧ a.StartCol ≤ b.StartCol)

instance (a b : ProfileBlock) : Decidable (startLE a b) :=
  inferInstanceAs (Decidable
    (a.StartLine < b.StartLine ∨ (a.StartLine = b.StartLine ∧ a.StartCol ≤ b.StartCol)))

/-- The blocks are in ascending order by start position: each block starts at
or before the next one. -/
def sortedByStart : List ProfileBlock → Prop
  | [] => True
  | [_] => True
  | a :: b :: rest => startLE a b ∧ sortedByStart (b :: rest)

/-- Sortedness can be checked by running down the list. -/
def decSortedByStart : (blocks : List ProfileBlock) → Decidable (sortedByStart blocks)
  | [] => isTrue trivial
  | [_] => isTrue trivial
  | a :: b :: rest =>
    match (inferInstance : Decidable (startLE a b)), decSortedByStart (b :: rest) with
    | isTrue h1, isTrue h2 => isTrue ⟨h1, h2⟩
    | isFalse h1, _ => isFalse (fun h => h1 h.1)
    | _, isFalse h2 => isFalse (fun h => h2 h.2)

instance (blocks : List ProfileBlock) : Decidable (sortedByStart blocks) :=
  decSortedByStart blocks

/-- Block `b` overlaps `f`: it starts strictly before the end of `f` and ends
strictly after the start of `f`, both lexicographically. -/
def overlaps (f : FuncExtent) (b : ProfileBlock) : Prop :=
  (b.StartLine < f.endLine ∨ (b.StartLine = f.endLine ∧ b.StartCol < f.endCol)) ∧
  (f.startLine < b.EndLine ∨ (f.startLine = b.EndLine ∧ f.startCol < b.EndCol))

instance (f : FuncExtent) (b : ProfileBlock) : Decidable (overlaps f b) :=
  inferInstanceAs (Decidable
    ((b.StartLine < f.endLine ∨ (b.StartLine = f.endLine ∧ b.StartCol < f.endCol)) ∧
     (f.startLine < b.EndLine ∨ (f.startLine = b.EndLine ∧ f.startCol < b.EndCol))))

/-- The statement counts of the blocks with `Count > 0` that overlap `f`. -/
def overlapStmts (f : FuncExtent) (blocks : List ProfileBlock) : List Int :=
  (blocks.filter (fun b => decide (overlaps f b ∧ b.Count > 0))).map (fun b => b.NumStmt)

/-- The blocks the loop reaches: those standing before the first block that is
past the end of `f`. -/
def scanned (f : FuncExtent) (blocks : List ProfileBlock) : List ProfileBlock :=
  blocks.takeWhile (fun b => decide (¬ pastEnd f b))

/-- The statement counts of the blocks with `Count > 0`. -/
def coveredStmts (blocks : List ProfileBlock) : List Int :=
  (blocks.filter (fun b => decide (b.Count > 0))).map (fun b => b.NumStmt)

/-- The statement counts of the blocks whose `Count` is not greater than zero. -/
def missedStmts (blocks : List ProfileBlock) : List Int :=
  (blocks.filter (fun b => decide (¬ b.Count > 0))).map (fun b => b.NumStmt)

/-! ## Sample data: `testData/main.go` -/

/-- The extents of the five functions declared in `testData/main.go`. -/
def sampleFuncs : List FuncExtent :=
  [ ⟨"init", 9, 1, 11, 2⟩, ⟨"main", 13, 1, 20, 2⟩, ⟨"getSomeField", 22, 1, 25, 2⟩,
    ⟨"setSomeFiled", 27, 1, 31, 2⟩, ⟨"someFunction", 33, 1, 34, 2⟩ ]

/-- The extent of the empty-bodied `someFunction` of `testData/main.go`. -/
def someFunction : FuncExtent := ⟨"someFunction", 33, 1, 34, 2⟩

/-- The extent of `getSomeField` of `testData/main.go`. -/
def getSomeField : FuncExtent := ⟨"getSomeField", 22, 1, 25, 2⟩

/-- A profile of `testData/main.go` with one block for the body of each of the
four functions that hold statements; only `getSomeField` was run. -/
def sampleProfile : Profile :=
  { FileName := "testData/main.go"
    Blocks := [ ⟨9, 13, 11, 2, 1, 0⟩, ⟨13, 13, 20, 2, 2, 0⟩, ⟨22, 49, 25, 2, 2, 1⟩,
                ⟨27, 71, 31, 2, 3, 0⟩ ] }

/-- The statement counts of all blocks. -/
def allStmts (blocks : List ProfileBlock) : List Int :=
  blocks.map (fun b => b.NumStmt)

/-- A profile with two blocks of 3 and 2 statements, of which only the first was run. -/
def twoBlockProfile : Profile :=
  { FileName := "a.go"
    Blocks := [ ⟨1, 1, 2, 1, 3, 1⟩, ⟨3, 1, 4, 1, 2, 0⟩ ] }

/-- The records expected from a list of profiles, each given with the path
its file resolves to and the function extents found in that file: one record
per function extent, in profile order and then declaration order. -/
def expectedInfos (inputs : List (Profile × String × List FuncExtent)) : List funcInfo :=
  inputs.flatMap (fun x => x.2.2.map (mkFuncInfo x.2.1 x.1))

/-- The total number of function extents over all profiles. -/
def totalExtents (inputs : List (Profile × String × List FuncExtent)) : Nat :=
  (inputs.map (fun x => x.2.2.length)).sum

/-- A source locator that resolves every file name to itself. -/
def resolveSelf (file : String) : Except String String := .ok file

/-- A function extractor that finds no function. -/
def findNoFuncs (_file : String) : Except String (List FuncExtent) := .ok []

/-- A function extractor that finds the functions of `testData/main.go`. -/
def findSampleFuncs (_file : String) : Except String (List FuncExtent) := .ok sampleFuncs

/-- Two blocks of `2^62` statements each, both run, in ascending order. -/
def hugeProfile : Profile :=
  { FileName := "huge.go"
    Blocks := [ ⟨3, 13, 5, 3, 4611686018427387904, 1⟩, ⟨5, 3, 10, 2, 4611686018427387904, 1⟩ ] }

/-- Two blocks of `2^62` statements each, neither of them run. -/
def hugeMissedProfile : Profile :=
  { FileName := "huge.go"
    Blocks := [ ⟨3, 13, 5, 3, 4611686018427387904, 0⟩, ⟨5, 3, 10, 2, 4611686018427387904, 0⟩ ] }

/-- Four blocks of `2^62` statements each in ascending order: the first two
were run, the last two were not. -/
def hugeMixedProfile : Profile :=
  { FileName := "huge.go"
    Blocks := [ ⟨3, 13, 5, 3, 4611686018427387904, 1⟩, ⟨5, 3, 10, 2, 4611686018427387904, 1⟩,
                ⟨12, 13, 14, 3, 4611686018427387904, 0⟩, ⟨14, 3, 16, 2, 4611686018427387904, 0⟩ ] }

/-- One block of one statement inside `hugeFunc` and one block of `2^63 - 1`
statements after it, both run. -/
def hugeTailProfile : Profile :=
  { FileName := "huge.go"
    Blocks := [ ⟨3, 13, 5, 3, 1, 1⟩, ⟨12, 13, 14, 2, 9223372036854775807, 1⟩ ] }

/-- A function extent that both blocks of `hugeProfile` overlap. -/
def hugeFunc : FuncExtent := ⟨"huge", 3, 1, 10, 2⟩

/-- The extent of `main` of `testData/main.go`. -/
def mainFunc : FuncExtent := ⟨"main", 13, 1, 20, 2⟩

/-- A block with one statement, run once, reaching from the body of `main`
into the body of `getSomeField`. -/
def spanningBlock : ProfileBlock := ⟨19, 2, 23, 5, 1, 1⟩

/-- The blocks of `setSomeFiled` and `getSomeField`, the later one first. -/
def unsortedBlocks : List ProfileBlock :=
  [ ⟨27, 71, 31, 2, 3, 0⟩, ⟨22, 49, 25, 2, 2, 1⟩ ]

/-- The same two blocks in ascending order by start position. -/
def resortedBlocks : List ProfileBlock :=
  [ ⟨22, 49, 25, 2, 2, 1⟩, ⟨27, 71, 31, 2, 3, 0⟩ ]

/-- One function spanning lines 16 to 19. -/
def func16to19 : FuncExtent := ⟨"getSomeField", 16, 1, 19, 2⟩

/-- One block covering lines 16 to 19 with `Count = 1` and `NumStmt = 1`. -/
def profile16to19 : Profile :=
  { FileName := "main.go", Blocks := [ ⟨16, 49, 19, 2, 1, 1⟩ ] }

/-- A function extractor that finds the one function `func16to19`. -/
def findFunc16to19 (_file : String) : Except String (List FuncExtent) := .ok [func16to19]

/-- All blocks of all profiles, in order. -/
def allBlocks (profiles : List Profile) : List ProfileBlock :=
  profiles.flatMap (fun p => p.Blocks)

/-! ## Lemmas on `int64` arithmetic -/

theorem wrapInt64_of_isInt64 {x : Int} (h : isInt64 x) : wrapInt64 x = x := by
  unfold isInt64 at h
  unfold wrapInt64
  omega

theorem isInt64_wrapInt64 (x : Int) : isInt64 (wrapInt64 x) := by
  unfold isInt64 wrapInt64
  omega

theorem wrapInt64_add_right (a b : Int) : wrapInt64 (a + wrapInt64 b) = wrapInt64 (a + b) := by
  unfold wrapInt64
  omega

theorem wrapInt64_add_left (a b : Int) : wrapInt64 (wrapInt64 a + b) = wrapInt64 (a + b) := by
  unfold wrapInt64
  omega

theorem wrapInt64_sub (a b : Int) :
    wrapInt64 (wrapInt64 a - wrapInt64 b) = wrapInt64 (a - b) := by
  unfold wrapInt64
  omega

theorem addInt64_wrap (a n : Int) :
    addInt64 (wrapInt64 a) (wrapInt64 n) = wrapInt64 (a + n) := by
  unfold addInt64
  rw [wrapInt64_add_right, wrapInt64_add_left]

theorem wrapInt64_le_self {x : Int} (h : 0 ≤ x) : wrapInt64 x ≤ x := by
  unfold wrapInt64
  omega

theorem wrapInt64_emod (x : Int) :
    wrapInt64 x % 18446744073709551616 = x % 18446744073709551616 := by
  unfold wrapInt64
  omega

theorem wrapInt64_zero : wrapInt64 0 = 0 := by
  unfold wrapInt64
  omega

/-! ## Lemmas on the overlap scan -/

/-- A block overlaps `f` exactly when neither test of the loop body fires. -/
theorem overlaps_iff (f : FuncExtent) (b : ProfileBlock) :
    overlaps f b ↔ ¬ pastEnd f b ∧ ¬ beforeStart f b := by
  unfold overlaps pastEnd beforeStart
  omega

/-- The loop adds the statement counts of the reached blocks that overlap `f`
and have a positive count. -/
theorem coverageLoop_eq (f : FuncExtent) (blocks : List ProfileBlock) (a : Int) :
    coverageLoop f blocks (wrapInt64 a)
      = wrapInt64 (a + (overlapStmts f (scanned f blocks)).sum) := by
  induction blocks generalizing a with
  | nil => simp [coverageLoop, overlapStmts, scanned]
  | cons b rest ih =>
    unfold coverageLoop
    by_cases hp : pastEnd f b
    · simp [hp, overlapStmts, scanned]
    · by_cases hb : beforeStart f b
      · have ho : ¬ overlaps f b := fun h => ((overlaps_iff f b).1 h).2 hb
        simp only [hp, hb, if_true, if_false]
        rw [ih]
        simp [overlapStmts, scanned, hp, ho]
      · have ho : overlaps f b := (overlaps_iff f b).2 ⟨hp, hb⟩
        by_cases hc : b.Count > 0
        · simp only [hp, hb, hc, if_true, if_false]
          rw [addInt64_wrap, ih]
          simp [overlapStmts, scanned, hp, ho, hc, add_assoc]
        · simp only [hp, hb, hc, if_false]
          rw [ih]
          simp [overlapStmts, scanned, hp, ho, hc]

/-- The value of `coverage` as an `int64` sum over the reached blocks. -/
theorem coverage_eq_scanned (f : FuncExtent) (profile : Profile) :
    f.coverage profile = int64Sum (overlapStmts f (scanned f profile.Blocks)) := by
  have h := coverageLoop_eq f profile.Blocks 0
  rw [wrapInt64_zero] at h
  simpa [FuncExtent.coverage, int64Sum] using h

theorem pastEnd_of_startLE {f : FuncExtent} {b c : ProfileBlock}
    (hb : pastEnd f b) (hbc : startLE b c) : pastEnd f c := by
  unfold pastEnd at *
  unfold startLE at hbc
  omega

theorem startLE_trans {a b c : ProfileBlock} (hab : startLE a b) (hbc : startLE b c) :
    startLE a c := by
  unfold startLE at *
  omega

theorem sortedByStart_tail {b : ProfileBlock} {rest : List ProfileBlock}
    (h : sortedByStart (b :: rest)) : sortedByStart rest := by
  cases rest with
  | nil => trivial
  | cons c rest => exact h.2

theorem sortedByStart_head_le {b : ProfileBlock} {rest : List ProfileBlock}
    (h : sortedByStart (b :: rest)) : ∀ c ∈ rest, startLE b c := by
  induction rest generalizing b with
  | nil => intro c hc; cases hc
  | cons d rest ih =>
    intro c hc
    rcases List.mem_cons.1 hc with rfl | hc
    · exact h.1
    · exact startLE_trans h.1 (ih h.2 c hc)

theorem sortedByStart_pairwise {blocks : List ProfileBlock} (h : sortedByStart blocks) :
    blocks.Pairwise startLE := by
  induction blocks with
  | nil => exact List.Pairwise.nil
  | cons b rest ih =>
    exact List.pairwise_cons.2 ⟨sortedByStart_head_le h, ih (sortedByStart_tail h)⟩

theorem scanned_cons_past {f : FuncExtent} {b : ProfileBlock} (rest : List ProfileBlock)
    (hp : pastEnd f b) : scanned f (b :: rest) = [] := by
  simp [scanned, hp]

theorem scanned_cons_reach {f : FuncExtent} {b : ProfileBlock} (rest : List ProfileBlock)
    (hp : ¬ pastEnd f b) : scanned f (b :: rest) = b :: scanned f rest := by
  simp [scanned, hp]

theorem overlapStmts_cons_pos {f : FuncExtent} {b : ProfileBlock} (rest : List ProfileBlock)
    (h : overlaps f b ∧ b.Count > 0) :
    overlapStmts f (b :: rest) = b.NumStmt :: overlapStmts f rest := by
  have hd : decide (overlaps f b ∧ b.Count > 0) = true := decide_eq_true h
  simp only [overlapStmts, List.filter_cons, hd, if_true, List.map_cons]

theorem overlapStmts_cons_neg {f : FuncExtent} {b : ProfileBlock} (rest : List ProfileBlock)
    (h : ¬ (overlaps f b ∧ b.Count > 0)) :
    overlapStmts f (b :: rest) = overlapStmts f rest := by
  have hd : decide (overlaps f b ∧ b.Count > 0) = false := decide_eq_false h
  simp only [overlapStmts, List.filter_cons, hd, Bool.false_eq_true, if_false]

theorem overlapStmts_eq_nil {f : FuncExtent} {blocks : List ProfileBlock}
    (h : ∀ b ∈ blocks, ¬ overlaps f b) : overlapStmts f blocks = [] := by
  induction blocks with
  | nil => rfl
  | cons b rest ih =>
    rw [overlapStmts_cons_neg rest (fun hb => h b (List.mem_cons_self b rest) hb.1)]
    exact ih (fun c hc => h c (List.mem_cons_of_mem b hc))

/-- On sorted input the blocks the loop never reaches do not overlap `f`. -/
theorem overlapStmts_scanned_of_pairwise (f : FuncExtent) (blocks : List ProfileBlock)
    (h : blocks.Pairwise startLE) :
    overlapStmts f (scanned f blocks) = overlapStmts f blocks := by
  induction blocks with
  | nil => rfl
  | cons b rest ih =>
    rw [List.pairwise_cons] at h
    by_cases hp : pastEnd f b
    · rw [scanned_cons_past rest hp]
      symm
      apply overlapStmts_eq_nil
      intro c hc ho
      have hpc : pastEnd f c := by
        rcases List.mem_cons.1 hc with rfl | hc
        · exact hp
        · exact pastEnd_of_startLE hp (h.1 c hc)
      exact ((overlaps_iff f c).1 ho).1 hpc
    · rw [scanned_cons_reach rest hp]
      by_cases hb : overlaps f b ∧ b.Count > 0
      · rw [overlapStmts_cons_pos _ hb, overlapStmts_cons_pos _ hb, ih h.2]
      · rw [overlapStmts_cons_neg _ hb, overlapStmts_cons_neg _ hb, ih h.2]

/-- The statement counts the loop adds are among those of the overlapping
covered blocks, in the same order. -/
theorem overlapStmts_scanned_sublist (f : FuncExtent) (blocks : List ProfileBlock) :
    (overlapStmts f (scanned f blocks)).Sublist (overlapStmts f blocks) := by
  unfold overlapStmts scanned
  exact ((List.takeWhile_sublist _).filter _).map _

/-- Inserting a block the loop skips with `continue` does not change the result. -/
theorem coverageLoop_insertIdx (f : FuncExtent) (b : ProfileBlock)
    (hp : ¬ pastEnd f b) (hb : beforeStart f b) (n : Nat) (blocks : List ProfileBlock)
    (a : Int) :
    coverageLoop f (blocks.insertIdx n b) a = coverageLoop f blocks a := by
  induction n generalizing blocks a with
  | zero =>
    rw [List.insertIdx_zero]
    conv_lhs => unfold coverageLoop
    simp only [hp, hb, if_true, if_false]
  | succ n ih =>
    cases blocks with
    | nil => rw [List.insertIdx_succ_nil]
    | cons c rest =>
      rw [List.insertIdx_succ_cons]
      unfold coverageLoop
      simp only [ih]

/-! ## Lemmas on the line totals -/

theorem allStmts_sum (blocks : List ProfileBlock) :
    (allStmts blocks).sum = (coveredStmts blocks).sum + (missedStmts blocks).sum := by
  induction blocks with
  | nil => rfl
  | cons b rest ih =>
    simp only [allStmts, coveredStmts, missedStmts, List.map_cons, List.sum_cons,
      List.filter_cons] at ih ⊢
    by_cases hc : b.Count > 0
    · simp only [hc, decide_True, decide_False, not_true_eq_false, if_true,
        Bool.false_eq_true, if_false, List.map_cons, List.sum_cons]
      omega
    · simp only [hc, decide_True, decide_False, not_false_eq_true, if_true,
        Bool.false_eq_true, if_false, List.map_cons, List.sum_cons]
      omega

theorem overallBlocks_eq (blocks : List ProfileBlock) (t c : Int) :
    overallBlocks blocks (wrapInt64 t, wrapInt64 c)
      = (wrapInt64 (t + (allStmts blocks).sum), wrapInt64 (c + (coveredStmts blocks).sum)) := by
  induction blocks generalizing t c with
  | nil => simp [overallBlocks, allStmts, coveredStmts]
  | cons b rest ih =>
    unfold overallBlocks
    by_cases hc : b.Count > 0
    · simp only [hc, if_true, addInt64_wrap]
      rw [ih]
      simp [allStmts, coveredStmts, hc, add_assoc]
    · simp only [hc, if_false, addInt64_wrap]
      rw [ih]
      simp [allStmts, coveredStmts, hc, add_assoc]

theorem allBlocks_cons (p : Profile) (rest : List Profile) :
    allBlocks (p :: rest) = p.Blocks ++ allBlocks rest := by
  unfold allBlocks
  exact List.flatMap_cons p rest _

theorem overallProfiles_eq (profiles : List Profile) (t c : Int) :
    overallProfiles profiles (wrapInt64 t, wrapInt64 c)
      = (wrapInt64 (t + (allStmts (allBlocks profiles)).sum),
         wrapInt64 (c + (coveredStmts (allBlocks profiles)).sum)) := by
  induction profiles generalizing t c with
  | nil => simp [overallProfiles, allBlocks, allStmts, coveredStmts]
  | cons p rest ih =>
    unfold overallProfiles
    rw [overallBlocks_eq, ih, allBlocks_cons]
    simp [allStmts, coveredStmts, add_assoc]

/-- The pair that `getOverallCoverage` returns. -/
theorem getOverallCoverage_eq (profiles : List Profile) :
    getOverallCoverage profiles
      = .ok (int64Sum (allStmts (allBlocks profiles)),
             int64Sum (coveredStmts (allBlocks profiles))) := by
  have h := overallProfiles_eq profiles 0 0
  rw [wrapInt64_zero] at h
  simp only [zero_add] at h
  simp only [getOverallCoverage, h, int64Sum]

/-- The `LineMissed` field: `total - covered` on `int64`. -/
theorem subInt64_totals (blocks : List ProfileBlock) :
    subInt64 (int64Sum (allStmts blocks)) (int64Sum (coveredStmts blocks))
      = int64Sum (missedStmts blocks) := by
  unfold subInt64 int64Sum
  rw [wrapInt64_sub, allStmts_sum]
  congr 1
  omega

/-! ## Lemmas on the function records and the method counts -/

theorem appendFuncInfos_eq (file : String) (profile : Profile) (funcs : List FuncExtent)
    (acc : List funcInfo) :
    appendFuncInfos file profile funcs acc = acc ++ funcs.map (mkFuncInfo file profile) := by
  induction funcs generalizing acc with
  | nil => simp [appendFuncInfos]
  | cons f rest ih =>
    unfold appendFuncInfos
    rw [ih]
    simp

theorem getFunctionInfosLoop_eq (findFile : String → Except String String)
    (findFuncs : String → Except String (List FuncExtent))
    (inputs : List (Profile × String × List FuncExtent))
    (h : ∀ x ∈ inputs, findFile x.1.FileName = .ok x.2.1 ∧ findFuncs x.2.1 = .ok x.2.2)
    (acc : List funcInfo) :
    getFunctionInfosLoop findFile findFuncs (inputs.map (fun x => x.1)) acc
      = .ok (acc ++ expectedInfos inputs) := by
  induction inputs generalizing acc with
  | nil => simp [getFunctionInfosLoop, expectedInfos]
  | cons x rest ih =>
    have hx := h x (List.mem_cons_self x rest)
    have hrest : ∀ y ∈ rest, findFile y.1.FileName = .ok y.2.1 ∧ findFuncs y.2.1 = .ok y.2.2 :=
      fun y hy => h y (List.mem_cons_of_mem x hy)
    rw [List.map_cons]
    unfold getFunctionInfosLoop
    simp only [hx.1, hx.2]
    rw [ih hrest, appendFuncInfos_eq]
    simp [expectedInfos, List.flatMap_cons]

theorem expectedInfos_length (inputs : List (Profile × String × List FuncExtent)) :
    (expectedInfos inputs).length = totalExtents inputs := by
  induction inputs with
  | nil => rfl
  | cons x rest ih =>
    simp only [expectedInfos, totalExtents, List.flatMap_cons, List.length_append,
      List.length_map, List.map_cons, List.sum_cons] at ih ⊢
    rw [ih]

theorem countMethods_eq (infos : List funcInfo) (m c : Int) :
    countMethods infos (m, c)
      = (m + (infos.countP (fun i => !i.isCovered) : Nat),
         c + (infos.countP (fun i => i.isCovered) : Nat)) := by
  induction infos generalizing m c with
  | nil => simp [countMethods]
  | cons i rest ih =>
    unfold countMethods
    by_cases hi : i.isCovered = true
    · simp only [hi, if_true]
      rw [ih]
      simp [List.countP_cons, hi, add_assoc, add_comm]
    · simp only [hi, Bool.false_eq_true, if_false]
      rw [ih]
      simp [List.countP_cons, hi, add_assoc, add_comm]

theorem countP_add_countP (infos : List funcInfo) :
    infos.countP (fun i => i.isCovered) + infos.countP (fun i => !i.isCovered)
      = infos.length := by
  induction infos with
  | nil => rfl
  | cons i rest ih =>
    by_cases hi : i.isCovered = true
    · simp [List.countP_cons, hi] at ih ⊢
      omega
    · simp [List.countP_cons, hi] at ih ⊢
      omega

/-- The record `mainAction` returns once `getFunctionInfos` has succeeded. -/
theorem mainAction_eq (findFile : String → Except String String)
    (findFuncs : String → Except String (List FuncExtent))
    (profiles : List Profile) (infos : List funcInfo)
    (h : getFunctionInfos findFile findFuncs profiles = .ok infos) :
    mainAction findFile findFuncs profiles
      = .ok { LineMissed := int64Sum (missedStmts (allBlocks profiles))
              LineCovered := int64Sum (coveredStmts (allBlocks profiles))
              MethodMissed := (infos.countP (fun i => !i.isCovered) : Nat)
              MethodCovered := (infos.countP (fun i => i.isCovered) : Nat) } := by
  unfold mainAction
  rw [getOverallCoverage_eq]
  simp only [h, countMethods_eq, lineCoverage, subInt64_totals, zero_add]

/-- When `mainAction` returns a record, `getFunctionInfos` has succeeded. -/
theorem mainAction_ok (findFile : String → Except String String)
    (findFuncs : String → Except String (List FuncExtent))
    (profiles : List Profile) (report : Coverage)
    (h : mainAction findFile findFuncs profiles = .ok report) :
    ∃ infos, getFunctionInfos findFile findFuncs profiles = .ok infos := by
  cases hg : getFunctionInfos findFile findFuncs profiles with
  | ok infos => exact ⟨infos, rfl⟩
  | error e =>
    unfold mainAction at h
    rw [getOverallCoverage_eq] at h
    simp [hg] at h

/-! ## Lemmas on sums of non-negative statement counts -/

theorem mem_overlapStmts {f : FuncExtent} {blocks : List ProfileBlock} {x : Int} :
    x ∈ overlapStmts f blocks ↔
      ∃ b ∈ blocks, (overlaps f b ∧ b.Count > 0) ∧ b.NumStmt = x := by
  unfold overlapStmts
  rw [List.mem_map]
  constructor
  · rintro ⟨b, hb, rfl⟩
    rw [List.mem_filter] at hb
    exact ⟨b, hb.1, of_decide_eq_true hb.2, rfl⟩
  · rintro ⟨b, hb, ho, rfl⟩
    exact ⟨b, List.mem_filter.2 ⟨hb, decide_eq_true ho⟩, rfl⟩

theorem mem_coveredStmts {blocks : List ProfileBlock} {x : Int} :
    x ∈ coveredStmts blocks ↔ ∃ b ∈ blocks, b.Count > 0 ∧ b.NumStmt = x := by
  unfold coveredStmts
  rw [List.mem_map]
  constructor
  · rintro ⟨b, hb, rfl⟩
    rw [List.mem_filter] at hb
    exact ⟨b, hb.1, of_decide_eq_true hb.2, rfl⟩
  · rintro ⟨b, hb, ho, rfl⟩
    exact ⟨b, List.mem_filter.2 ⟨hb, decide_eq_true ho⟩, rfl⟩

theorem overlapStmts_sublist_coveredStmts (f : FuncExtent) (blocks : List ProfileBlock) :
    (overlapStmts f blocks).Sublist (coveredStmts blocks) := by
  induction blocks with
  | nil => exact List.Sublist.slnil
  | cons b rest ih =>
    by_cases hc : b.Count > 0
    · have hcov : coveredStmts (b :: rest) = b.NumStmt :: coveredStmts rest := by
        simp [coveredStmts, hc]
      rw [hcov]
      by_cases ho : overlaps f b
      · rw [overlapStmts_cons_pos rest ⟨ho, hc⟩]
        exact ih.cons₂ _
      · rw [overlapStmts_cons_neg rest (fun h => ho h.1)]
        exact ih.cons _
    · have hcov : coveredStmts (b :: rest) = coveredStmts rest := by
        simp [coveredStmts, hc]
      rw [hcov, overlapStmts_cons_neg rest (fun h => hc h.2)]
      exact ih

theorem sum_nonneg_of_nonneg {l : List Int} (h : ∀ x ∈ l, 0 ≤ x) : 0 ≤ l.sum := by
  induction l with
  | nil => simp
  | cons a rest ih =>
    have ha := h a (List.mem_cons_self a rest)
    have hr := ih (fun x hx => h x (List.mem_cons_of_mem a hx))
    simp only [List.sum_cons]
    omega

theorem sum_le_of_sublist {l₁ l₂ : List Int} (hs : l₁.Sublist l₂) (h : ∀ x ∈ l₂, 0 ≤ x) :
    l₁.sum ≤ l₂.sum := by
  induction hs with
  | slnil => exact le_refl _
  | cons a _ ih =>
    have ha := h a (List.mem_cons_self a _)
    have hr := ih (fun x hx => h x (List.mem_cons_of_mem a hx))
    simp only [List.sum_cons]
    omega
  | cons₂ a _ ih =>
    have hr := ih (fun x hx => h x (List.mem_cons_of_mem a hx))
    simp only [List.sum_cons]
    omega

theorem sum_pos_iff_of_nonneg {l : List Int} (h : ∀ x ∈ l, 0 ≤ x) :
    0 < l.sum ↔ ∃ x ∈ l, x ≠ 0 := by
  induction l with
  | nil => simp
  | cons a rest ih =>
    have ha := h a (List.mem_cons_self a rest)
    have hrest : ∀ x ∈ rest, 0 ≤ x := fun x hx => h x (List.mem_cons_of_mem a hx)
    have hr := sum_nonneg_of_nonneg hrest
    have ih1 := ih hrest
    simp only [List.sum_cons]
    constructor
    · intro hpos
      by_cases h0 : a = 0
      · have : 0 < rest.sum := by omega
        obtain ⟨x, hx, hx0⟩ := ih1.1 this
        exact ⟨x, List.mem_cons_of_mem a hx, hx0⟩
      · exact ⟨a, List.mem_cons_self a rest, h0⟩
    · rintro ⟨x, hx, hx0⟩
      rcases List.mem_cons.1 hx with rfl | hx
      · omega
      · have := ih1.2 ⟨x, hx, hx0⟩
        omega

theorem overlapStmts_nonneg {f : FuncExtent} {blocks : List ProfileBlock}
    (h : ∀ b ∈ blocks, 0 ≤ b.NumStmt) : ∀ x ∈ overlapStmts f blocks, 0 ≤ x := by
  intro x hx
  obtain ⟨b, hb, _, rfl⟩ := mem_overlapStmts.1 hx
  exact h b hb

theorem coveredStmts_nonneg {blocks : List ProfileBlock}
    (h : ∀ b ∈ blocks, 0 ≤ b.NumStmt) : ∀ x ∈ coveredStmts blocks, 0 ≤ x := by
  intro x hx
  obtain ⟨b, hb, _, rfl⟩ := mem_coveredStmts.1 hx
  exact h b hb

/-- With non-negative statement counts and an overlapping covered sum below
`2^63`, the loop's result is the exact sum over the blocks it reaches. -/
theorem coverage_exact_of_bound (f : FuncExtent) (profile : Profile)
    (hn : ∀ b ∈ profile.Blocks, 0 ≤ b.NumStmt)
    (hb : (overlapStmts f profile.Blocks).sum < 9223372036854775808) :
    f.coverage profile = (overlapStmts f (scanned f profile.Blocks)).sum ∧
    0 ≤ (overlapStmts f (scanned f profile.Blocks)).sum ∧
    (overlapStmts f (scanned f profile.Blocks)).sum ≤ (overlapStmts f profile.Blocks).sum := by
  have hsub := overlapStmts_scanned_sublist f profile.Blocks
  have hle := sum_le_of_sublist hsub (overlapStmts_nonneg hn)
  have h0 : 0 ≤ (overlapStmts f (scanned f profile.Blocks)).sum :=
    sum_nonneg_of_nonneg (fun x hx => overlapStmts_nonneg hn x (hsub.subset hx))
  refine ⟨?_, h0, hle⟩
  rw [coverage_eq_scanned, int64Sum]
  apply wrapInt64_of_isInt64
  unfold isInt64
  omega

/-! ## The claims -/

/-- C1, as stated, fails when the `int64` accumulator overflows: on a sorted
sequence of two overlapping blocks of `2^62` statements each, both run,
`coverage` is `-2^63` while the sum of `NumStmt` over the overlapping blocks
with `Count > 0` is `2^63`. -/
theorem coverage_ne_overlap_sum_on_overflow :
    sortedByStart hugeProfile.Blocks ∧
    hugeFunc.coverage hugeProfile = -9223372036854775808 ∧
    (overlapStmts hugeFunc hugeProfile.Blocks).sum = 9223372036854775808 ∧
    hugeFunc.coverage hugeProfile ≠ (overlapStmts hugeFunc hugeProfile.Blocks).sum := by
  decide

/-- C1, amended: on a block sequence in ascending order by start position,
`coverage` equals the sum of `NumStmt` over all blocks of the sequence that
overlap the function and have `Count > 0` whenever that sum is an `int64`
value; for every sorted sequence it is that sum reduced modulo `2^64` to an
`int64` value, so the early `break` drops no overlapping block. -/
theorem coverage_eq_overlap_sum_of_sorted (f : FuncExtent) (profile : Profile)
    (h : sortedByStart profile.Blocks) :
    f.coverage profile = int64Sum (overlapStmts f profile.Blocks) ∧
    (isInt64 (overlapStmts f profile.Blocks).sum →
      f.coverage profile = (overlapStmts f profile.Blocks).sum) := by
  have h1 : f.coverage profile = int64Sum (overlapStmts f profile.Blocks) := by
    rw [coverage_eq_scanned,
      overlapStmts_scanned_of_pairwise f profile.Blocks (sortedByStart_pairwise h)]
  refine ⟨h1, fun hr => ?_⟩
  rw [h1, int64Sum, wrapInt64_of_isInt64 hr]

theorem coverage_eq_overlap_sum_of_sorted_witness :
    sortedByStart sampleProfile.Blocks ∧ getSomeField.coverage sampleProfile = 2 :=
  ⟨by decide,
   ((coverage_eq_overlap_sum_of_sorted getSomeField sampleProfile (by decide)).2
      (by decide)).trans (by decide)⟩

/-- C6: when no block of the sequence, in whatever order, overlaps the
function, `coverage` returns 0, the record built for the function has
`isCovered = false`, and the counting loop adds it to `methodMissed`. -/
theorem coverage_zero_of_no_overlap (file : String) (f : FuncExtent) (profile : Profile)
    (h : ∀ b ∈ profile.Blocks, ¬ overlaps f b) :
    f.coverage profile = 0 ∧
    (mkFuncInfo file profile f).isCovered = false ∧
    ∀ (rest : List funcInfo) (methodMissed methodCovered : Int),
      countMethods (mkFuncInfo file profile f :: rest) (methodMissed, methodCovered)
        = countMethods rest (methodMissed + 1, methodCovered) := by
  have h0 : f.coverage profile = 0 := by
    have hsub := overlapStmts_scanned_sublist f profile.Blocks
    rw [overlapStmts_eq_nil h] at hsub
    rw [coverage_eq_scanned, List.sublist_nil.1 hsub]
    exact wrapInt64_zero
  have hc : (mkFuncInfo file profile f).isCovered = false := by
    simp [mkFuncInfo, h0]
  refine ⟨h0, hc, fun rest m c => ?_⟩
  conv_lhs => unfold countMethods
  simp [hc]

theorem coverage_zero_of_no_overlap_witness :
    (∀ b ∈ sampleProfile.Blocks, ¬ overlaps someFunction b) ∧
    someFunction.coverage sampleProfile = 0 ∧
    (mkFuncInfo "testData/main.go" sampleProfile someFunction).isCovered = false :=
  ⟨by decide,
   (coverage_zero_of_no_overlap "testData/main.go" someFunction sampleProfile (by decide)).1,
   (coverage_zero_of_no_overlap "testData/main.go" someFunction sampleProfile (by decide)).2.1⟩

/-- C8: a block that lies entirely before the function (its end is at or before
the function's start, line then column) never contributes: inserting it at any
index of any block sequence leaves `coverage` unchanged, whatever its `Count`
and `NumStmt`. The function's start is strictly before its end and the block's
start is not after its own end. -/
theorem coverage_insert_block_before (f : FuncExtent) (name : String)
    (blocks : List ProfileBlock) (b : ProfileBlock) (n : Nat)
    (hf : f.startLine < f.endLine ∨ (f.startLine = f.endLine ∧ f.startCol < f.endCol))
    (hb : b.StartLine < b.EndLine ∨ (b.StartLine = b.EndLine ∧ b.StartCol ≤ b.EndCol))
    (hbf : b.EndLine < f.startLine ∨ (b.EndLine = f.startLine ∧ b.EndCol ≤ f.startCol)) :
    f.coverage ⟨name, blocks.insertIdx n b⟩ = f.coverage ⟨name, blocks⟩ := by
  have hp : ¬ pastEnd f b := by
    unfold pastEnd
    omega
  exact coverageLoop_insertIdx f b hp hbf n blocks 0

theorem coverage_insert_block_before_witness :
    getSomeField.coverage ⟨"testData/main.go", sampleProfile.Blocks.insertIdx 4 ⟨20, 1, 22, 1, 7, 5⟩⟩
      = getSomeField.coverage ⟨"testData/main.go", sampleProfile.Blocks⟩ :=
  coverage_insert_block_before getSomeField "testData/main.go" sampleProfile.Blocks
    ⟨20, 1, 22, 1, 7, 5⟩ 4 (by decide) (by decide) (by decide)

/-- C3, as stated, fails when the `int64` totals overflow: with two run and
two unrun blocks of `2^62` statements each, the report has `LineCovered` and
`LineMissed` both `-2^63`, while the sums of `NumStmt` over the blocks with
`Count > 0` and over the other blocks are both `2^63`. -/
theorem line_fields_ne_sums_on_overflow :
    mainAction resolveSelf findNoFuncs [hugeMixedProfile]
      = .ok ⟨-9223372036854775808, -9223372036854775808, 0, 0⟩ ∧
    (coveredStmts (allBlocks [hugeMixedProfile])).sum = 9223372036854775808 ∧
    (missedStmts (allBlocks [hugeMixedProfile])).sum = 9223372036854775808 :=
  ⟨rfl, by decide, by decide⟩

/-- C3, amended: `getOverallCoverage` always returns, and every report that
`mainAction` returns (it returns one whenever `getFunctionInfos` succeeds) has
`LineCovered` equal to the sum of `NumStmt` over all blocks of all profiles with
`Count > 0` whenever that sum is an `int64` value, and `LineMissed` equal to the
sum over all other blocks whenever that sum is an `int64` value; for every list
of profiles each field is its sum reduced modulo `2^64` to an `int64` value. -/
theorem line_covered_and_missed (findFile : String → Except String String)
    (findFuncs : String → Except String (List FuncExtent)) (profiles : List Profile) :
    (∃ total covered, getOverallCoverage profiles = .ok (total, covered) ∧
      (lineCoverage total covered).LineCovered = int64Sum (coveredStmts (allBlocks profiles)) ∧
      (lineCoverage total covered).LineMissed = int64Sum (missedStmts (allBlocks profiles))) ∧
    (∀ infos, getFunctionInfos findFile findFuncs profiles = .ok infos →
      ∃ report, mainAction findFile findFuncs profiles = .ok report) ∧
    (∀ report, mainAction findFile findFuncs profiles = .ok report →
      report.LineCovered = int64Sum (coveredStmts (allBlocks profiles)) ∧
      report.LineMissed = int64Sum (missedStmts (allBlocks profiles)) ∧
      (isInt64 (coveredStmts (allBlocks profiles)).sum →
        report.LineCovered = (coveredStmts (allBlocks profiles)).sum) ∧
      (isInt64 (missedStmts (allBlocks profiles)).sum →
        report.LineMissed = (missedStmts (allBlocks profiles)).sum)) := by
  refine ⟨⟨_, _, getOverallCoverage_eq profiles, rfl, ?_⟩, ?_, ?_⟩
  · exact subInt64_totals (allBlocks profiles)
  · intro infos hi
    exact ⟨_, mainAction_eq findFile findFuncs profiles infos hi⟩
  · intro report hr
    obtain ⟨infos, hi⟩ := mainAction_ok findFile findFuncs profiles report hr
    rw [mainAction_eq findFile findFuncs profiles infos hi] at hr
    injection hr with hr
    subst hr
    refine ⟨rfl, rfl, fun hc => ?_, fun hm => ?_⟩
    · exact wrapInt64_of_isInt64 hc
    · exact wrapInt64_of_isInt64 hm

theorem line_covered_and_missed_witness :
    ∃ report, mainAction resolveSelf findNoFuncs [twoBlockProfile] = .ok report ∧
      report.LineCovered = 3 ∧ report.LineMissed = 2 := by
  have h := line_covered_and_missed resolveSelf findNoFuncs [twoBlockProfile]
  obtain ⟨report, hr⟩ := h.2.1 [] rfl
  have h2 := h.2.2 report hr
  exact ⟨report, hr, (h2.2.2.1 (by decide)).trans (by decide),
    (h2.2.2.2 (by decide)).trans (by decide)⟩

/-- C4, as stated, fails when an `int64` total overflows. With two run blocks
of `2^62` statements each, `LineCovered + LineMissed` is `-2^63 + 0` while the
sum of `NumStmt` is `2^63`; with two unrun blocks of `2^62` statements each it
is `0 + -2^63` while the sum is again `2^63`. -/
theorem line_totals_ne_sum_on_overflow :
    (getOverallCoverage [hugeProfile] = .ok (-9223372036854775808, -9223372036854775808) ∧
      (lineCoverage (-9223372036854775808) (-9223372036854775808)).LineCovered
        + (lineCoverage (-9223372036854775808) (-9223372036854775808)).LineMissed
        = -9223372036854775808 ∧
      (allStmts (allBlocks [hugeProfile])).sum = 9223372036854775808) ∧
    (getOverallCoverage [hugeMissedProfile] = .ok (-9223372036854775808, 0) ∧
      (lineCoverage (-9223372036854775808) 0).LineCovered
        + (lineCoverage (-9223372036854775808) 0).LineMissed
        = -9223372036854775808 ∧
      (allStmts (allBlocks [hugeMissedProfile])).sum = 9223372036854775808) :=
  ⟨⟨rfl, by decide, by decide⟩, ⟨rfl, by decide, by decide⟩⟩

/-- C4, amended: for every list of profiles, the empty one included, the record
built from `getOverallCoverage` has `LineCovered + LineMissed` equal to the sum
of `NumStmt` over every block of every profile whenever the sum over the blocks
with `Count > 0` and the sum over the other blocks are both `int64` values; for
every list of profiles the two differ by a multiple of `2^64`. -/
theorem line_totals_add_up (profiles : List Profile) :
    ∃ total covered, getOverallCoverage profiles = .ok (total, covered) ∧
      ((lineCoverage total covered).LineCovered + (lineCoverage total covered).LineMissed)
          % 18446744073709551616
        = (allStmts (allBlocks profiles)).sum % 18446744073709551616 ∧
      (isInt64 (coveredStmts (allBlocks profiles)).sum →
        isInt64 (missedStmts (allBlocks profiles)).sum →
        (lineCoverage total covered).LineCovered + (lineCoverage total covered).LineMissed
          = (allStmts (allBlocks profiles)).sum) := by
  refine ⟨_, _, getOverallCoverage_eq profiles, ?_, fun hc hm => ?_⟩
  · simp only [lineCoverage, subInt64_totals]
    unfold int64Sum
    have h1 := wrapInt64_emod (coveredStmts (allBlocks profiles)).sum
    have h2 := wrapInt64_emod (missedStmts (allBlocks profiles)).sum
    rw [allStmts_sum]
    omega
  · simp only [lineCoverage, subInt64_totals]
    unfold int64Sum
    rw [wrapInt64_of_isInt64 hc, wrapInt64_of_isInt64 hm, allStmts_sum]

theorem line_totals_add_up_witness :
    ∃ total covered, getOverallCoverage [sampleProfile, twoBlockProfile] = .ok (total, covered) ∧
      (lineCoverage total covered).LineCovered + (lineCoverage total covered).LineMissed = 13 := by
  obtain ⟨total, covered, h1, _, h3⟩ := line_totals_add_up [sampleProfile, twoBlockProfile]
  exact ⟨total, covered, h1, (h3 (by decide) (by decide)).trans (by decide)⟩

/-- C5: when every profile's file resolves and parses, `getFunctionInfos`
returns exactly one record per function extent, and the counting loop gives
`MethodCovered` the number of records with `isCovered` true and `MethodMissed`
the number with `isCovered` false, so that `MethodCovered + MethodMissed` is the
total number of function extents over all profiles. -/
theorem method_counts (findFile : String → Except String String)
    (findFuncs : String → Except String (List FuncExtent))
    (inputs : List (Profile × String × List FuncExtent))
    (h : ∀ x ∈ inputs, findFile x.1.FileName = .ok x.2.1 ∧ findFuncs x.2.1 = .ok x.2.2) :
    getFunctionInfos findFile findFuncs (inputs.map (fun x => x.1)) = .ok (expectedInfos inputs) ∧
    (expectedInfos inputs).length = totalExtents inputs ∧
    ∃ report, mainAction findFile findFuncs (inputs.map (fun x => x.1)) = .ok report ∧
      report.MethodCovered = ((expectedInfos inputs).countP (fun i => i.isCovered) : Nat) ∧
      report.MethodMissed = ((expectedInfos inputs).countP (fun i => !i.isCovered) : Nat) ∧
      report.MethodCovered + report.MethodMissed = (totalExtents inputs : Nat) := by
  have hg : getFunctionInfos findFile findFuncs (inputs.map (fun x => x.1))
      = .ok (expectedInfos inputs) := by
    unfold getFunctionInfos
    rw [getFunctionInfosLoop_eq findFile findFuncs inputs h, List.nil_append]
  refine ⟨hg, expectedInfos_length inputs, _, mainAction_eq _ _ _ _ hg, rfl, rfl, ?_⟩
  have hc := countP_add_countP (expectedInfos inputs)
  rw [expectedInfos_length] at hc
  simp only
  exact_mod_cast hc

theorem method_counts_witness :
    ∃ report, mainAction resolveSelf findSampleFuncs [sampleProfile] = .ok report ∧
      report.MethodCovered = 1 ∧ report.MethodMissed = 4 := by
  have h := method_counts resolveSelf findSampleFuncs
    [(sampleProfile, "testData/main.go", sampleFuncs)]
    (by intro x hx; rw [List.mem_singleton] at hx; subst hx; exact ⟨rfl, rfl⟩)
  obtain ⟨report, hr, hc, hm, _⟩ := h.2.2
  exact ⟨report, hr, hc.trans (by decide), hm.trans (by decide)⟩

/-- C7: matching is by range overlap, not by exclusive partition. A block with
`Count > 0` is credited to every function it overlaps: on the one-block profile
of `b`, `coverage` is the `NumStmt` of `b` (a Go `int`, hence an `int64` value)
for `f1` and for `f2` alike. And there are two functions with disjoint spans
that one block makes both covered. -/
theorem block_credited_to_each_overlapping_function :
    (∀ (name : String) (b : ProfileBlock) (f1 f2 : FuncExtent),
      b.Count > 0 → isInt64 b.NumStmt → overlaps f1 b → overlaps f2 b →
      f1.coverage ⟨name, [b]⟩ = b.NumStmt ∧ f2.coverage ⟨name, [b]⟩ = b.NumStmt) ∧
    (∃ (file : String) (b : ProfileBlock) (f1 f2 : FuncExtent),
      (f1.endLine < f2.startLine ∨ (f1.endLine = f2.startLine ∧ f1.endCol ≤ f2.startCol)) ∧
      (mkFuncInfo file ⟨file, [b]⟩ f1).isCovered = true ∧
      (mkFuncInfo file ⟨file, [b]⟩ f2).isCovered = true) := by
  constructor
  · intro name b f1 f2 hc hr h1 h2
    have key : ∀ f : FuncExtent, overlaps f b → f.coverage ⟨name, [b]⟩ = b.NumStmt := by
      intro f ho
      have hp := ((overlaps_iff f b).1 ho).1
      rw [coverage_eq_scanned]
      simp only [scanned_cons_reach [] hp]
      rw [overlapStmts_cons_pos _ ⟨ho, hc⟩]
      simp only [scanned, List.takeWhile_nil, overlapStmts, List.filter_nil, List.map_nil,
        int64Sum, List.sum_cons, List.sum_nil, add_zero]
      exact wrapInt64_of_isInt64 hr
    exact ⟨key f1 h1, key f2 h2⟩
  · exact ⟨"testData/main.go", spanningBlock, mainFunc, getSomeField, by decide, by decide,
      by decide⟩

theorem block_credited_to_each_overlapping_function_witness :
    mainFunc.coverage ⟨"testData/main.go", [spanningBlock]⟩ = 1 ∧
    getSomeField.coverage ⟨"testData/main.go", [spanningBlock]⟩ = 1 :=
  block_credited_to_each_overlapping_function.1 "testData/main.go" spanningBlock mainFunc
    getSomeField (by decide) (by decide) (by decide) (by decide)

/-- C9: `coverage` neither sorts nor checks its input. There are a function
extent and a block sequence not in ascending start order, holding a block with
`Count > 0` and `NumStmt > 0` that overlaps the function, on which `coverage`
returns 0 and the function's record has `isCovered = false`, while the same
blocks in ascending start order give a positive count. -/
theorem coverage_undercounts_unsorted :
    ∃ (file : String) (f : FuncExtent) (blocks sorted : List ProfileBlock),
      ¬ sortedByStart blocks ∧
      (∃ b ∈ blocks, overlaps f b ∧ b.Count > 0 ∧ b.NumStmt > 0) ∧
      f.coverage ⟨file, blocks⟩ = 0 ∧
      (mkFuncInfo file ⟨file, blocks⟩ f).isCovered = false ∧
      sorted.Perm blocks ∧ sortedByStart sorted ∧
      0 < f.coverage ⟨file, sorted⟩ :=
  ⟨"testData/main.go", getSomeField, unsortedBlocks, resortedBlocks, by decide,
    ⟨⟨22, 49, 25, 2, 2, 1⟩, by decide, by decide, by decide, by decide⟩, by decide, by decide,
    List.Perm.swap _ _ [], by decide, by decide⟩

/-- C10, as stated, fails when an `int64` accumulator overflows, in two of its
three bounds. Two overlapping blocks of `2^62` statements each, both run, give a
negative `coverage`. One overlapping block of one statement followed by a run
block of `2^63 - 1` statements outside the function gives `coverage = 1` above
the covered total `-2^63` that `getOverallCoverage` computes. -/
theorem coverage_bounds_fail_on_overflow :
    ((∀ b ∈ hugeProfile.Blocks, 0 ≤ b.NumStmt) ∧
      hugeFunc.coverage hugeProfile = -9223372036854775808 ∧
      ¬ (0 ≤ hugeFunc.coverage hugeProfile)) ∧
    ((∀ b ∈ hugeTailProfile.Blocks, 0 ≤ b.NumStmt) ∧
      getOverallCoverage [hugeTailProfile]
        = .ok (-9223372036854775808, -9223372036854775808) ∧
      hugeFunc.coverage hugeTailProfile = 1 ∧
      ¬ (hugeFunc.coverage hugeTailProfile ≤ -9223372036854775808)) :=
  ⟨by decide, by decide, rfl, by decide, by decide⟩

/-- C10, amended: with non-negative statement counts, in any block order,
`coverage` is at most the sum of `NumStmt` over the overlapping blocks with
`Count > 0`; it is at least 0 provided that sum is below `2^63`; and it is at
most the covered total that `getOverallCoverage` computes for the profile
provided the sum of `NumStmt` over all blocks with `Count > 0` is below `2^63`. -/
theorem coverage_bounds (f : FuncExtent) (profile : Profile)
    (hn : ∀ b ∈ profile.Blocks, 0 ≤ b.NumStmt) :
    f.coverage profile ≤ (overlapStmts f profile.Blocks).sum ∧
    ((overlapStmts f profile.Blocks).sum < 9223372036854775808 →
      0 ≤ f.coverage profile) ∧
    ((coveredStmts profile.Blocks).sum < 9223372036854775808 →
      ∃ total covered, getOverallCoverage [profile] = .ok (total, covered) ∧
        f.coverage profile ≤ covered) := by
  have hsub := overlapStmts_scanned_sublist f profile.Blocks
  have hle := sum_le_of_sublist hsub (overlapStmts_nonneg hn)
  have h0 : 0 ≤ (overlapStmts f (scanned f profile.Blocks)).sum :=
    sum_nonneg_of_nonneg (fun x hx => overlapStmts_nonneg hn x (hsub.subset hx))
  have hup : f.coverage profile ≤ (overlapStmts f profile.Blocks).sum := by
    rw [coverage_eq_scanned, int64Sum]
    exact le_trans (wrapInt64_le_self h0) hle
  refine ⟨hup, fun hb => ?_, fun hb => ?_⟩
  · rw [(coverage_exact_of_bound f profile hn hb).1]
    exact h0
  · have hcle := sum_le_of_sublist (overlapStmts_sublist_coveredStmts f profile.Blocks)
      (coveredStmts_nonneg hn)
    have hc0 := sum_nonneg_of_nonneg (coveredStmts_nonneg hn)
    have hall : allBlocks [profile] = profile.Blocks := by
      simp [allBlocks]
    have hcov : int64Sum (coveredStmts profile.Blocks) = (coveredStmts profile.Blocks).sum := by
      unfold int64Sum
      apply wrapInt64_of_isInt64
      unfold isInt64
      omega
    refine ⟨_, _, getOverallCoverage_eq [profile], ?_⟩
    rw [hall, hcov]
    exact le_trans hup hcle

theorem coverage_bounds_witness :
    getSomeField.coverage ⟨"testData/main.go", unsortedBlocks⟩ ≤ 2 ∧
    0 ≤ getSomeField.coverage ⟨"testData/main.go", unsortedBlocks⟩ ∧
    ∃ total covered,
      getOverallCoverage [⟨"testData/main.go", unsortedBlocks⟩] = .ok (total, covered) ∧
      getSomeField.coverage ⟨"testData/main.go", unsortedBlocks⟩ ≤ covered := by
  have h := coverage_bounds getSomeField ⟨"testData/main.go", unsortedBlocks⟩ (by decide)
  exact ⟨h.1.trans (by decide), h.2.1 (by decide), h.2.2 (by decide)⟩

/-- C2, as stated, fails when the `int64` accumulator overflows: on a sorted
profile with non-negative statement counts, two overlapping blocks of `2^62`
statements each, both run, leave `isCovered` false. -/
theorem isCovered_false_on_overflow :
    sortedByStart hugeProfile.Blocks ∧
    (∀ b ∈ hugeProfile.Blocks, 0 ≤ b.NumStmt) ∧
    (∃ b ∈ hugeProfile.Blocks, overlaps hugeFunc b ∧ b.Count > 0 ∧ b.NumStmt ≠ 0) ∧
    (mkFuncInfo "huge.go" hugeProfile hugeFunc).isCovered = false := by
  refine ⟨by decide, by decide, ⟨⟨3, 13, 5, 3, 4611686018427387904, 1⟩, ?_⟩, by decide⟩
  decide

/-- C2, amended: for a profile whose blocks are in ascending order by start
position and have non-negative statement counts, and a function for which the
`NumStmt` of the overlapping blocks with `Count > 0` sum to less than `2^63`,
the record that `getFunctionInfos` builds for the function has
`isCovered = true` if and only if some block of the profile overlaps the
function, has `Count > 0` and has `NumStmt` different from 0. -/
theorem isCovered_iff_overlapping_covered_block
    (findFile : String → Except String String)
    (findFuncs : String → Except String (List FuncExtent))
    (file : String) (funcs : List FuncExtent) (f : FuncExtent) (profile : Profile)
    (hfile : findFile profile.FileName = .ok file) (hfuncs : findFuncs file = .ok funcs)
    (hs : sortedByStart profile.Blocks)
    (hn : ∀ b ∈ profile.Blocks, 0 ≤ b.NumStmt)
    (hb : (overlapStmts f profile.Blocks).sum < 9223372036854775808) :
    getFunctionInfos findFile findFuncs [profile] = .ok (funcs.map (mkFuncInfo file profile)) ∧
    ((mkFuncInfo file profile f).isCovered = true ↔
      ∃ b ∈ profile.Blocks, overlaps f b ∧ b.Count > 0 ∧ b.NumStmt ≠ 0) := by
  constructor
  · have h := getFunctionInfosLoop_eq findFile findFuncs [(profile, file, funcs)]
      (by intro x hx; rw [List.mem_singleton] at hx; subst hx; exact ⟨hfile, hfuncs⟩) []
    simpa [getFunctionInfos, expectedInfos] using h
  · have hcov : f.coverage profile = (overlapStmts f profile.Blocks).sum := by
      rw [(coverage_exact_of_bound f profile hn hb).1,
        overlapStmts_scanned_of_pairwise f profile.Blocks (sortedByStart_pairwise hs)]
    have hiff := sum_pos_iff_of_nonneg (overlapStmts_nonneg (f := f) hn)
    simp only [mkFuncInfo, decide_eq_true_eq, gt_iff_lt, hcov]
    rw [hiff]
    constructor
    · rintro ⟨x, hx, hx0⟩
      obtain ⟨b, hb1, ho, rfl⟩ := mem_overlapStmts.1 hx
      exact ⟨b, hb1, ho.1, ho.2, hx0⟩
    · rintro ⟨b, hb1, ho, hc, hx0⟩
      exact ⟨b.NumStmt, mem_overlapStmts.2 ⟨b, hb1, ⟨ho, hc⟩, rfl⟩, hx0⟩

theorem isCovered_iff_overlapping_covered_block_witness :
    getFunctionInfos resolveSelf findFunc16to19 [profile16to19]
      = .ok [mkFuncInfo "main.go" profile16to19 func16to19] ∧
    (mkFuncInfo "main.go" profile16to19 func16to19).isCovered = true := by
  have h := isCovered_iff_overlapping_covered_block resolveSelf findFunc16to19 "main.go"
    [func16to19] func16to19 profile16to19 rfl rfl (by decide) (by decide) (by decide)
  exact ⟨h.1, h.2.2 ⟨⟨16, 49, 19, 2, 1, 1⟩, by decide, by decide, by decide, by decide⟩⟩

end GoExtCover
